import Mathlib

/-!
Shallow embedding of the casbin drizzle adapter (src/adapter.ts and
src/casbinRule.ts). The table is modelled as a list of rows; each adapter
operation is translated into the list of database statements it issues
through the query builder, and a statement interpreter gives the effect of
those statements on the table contents. The filtered flag is carried in an
explicit adapter state.
-/

/-- One row of the casbin_rule table: a nullable ptype column and six nullable
value columns v0..v5. The auto-increment id column plays no role in the
adapter semantics and is omitted. -/
structure CasbinRule where
  ptype : Option String
  v0 : Option String
  v1 : Option String
  v2 : Option String
  v3 : Option String
  v4 : Option String
  v5 : Option String
deriving DecidableEq, Repr

/-- The seven columns the adapter builds equality conditions on. -/
inductive Col where
  | ptype
  | v0
  | v1
  | v2
  | v3
  | v4
  | v5
deriving DecidableEq, Repr

/-- Read one column of a row. -/
def getCol (r : CasbinRule) : Col → Option String
  | .ptype => r.ptype
  | .v0 => r.v0
  | .v1 => r.v1
  | .v2 => r.v2
  | .v3 => r.v3
  | .v4 => r.v4
  | .v5 => r.v5

/-- Read the value column at numeric position i (positions 0..5). -/
def rowV (r : CasbinRule) : Nat → Option String
  | 0 => r.v0
  | 1 => r.v1
  | 2 => r.v2
  | 3 => r.v3
  | 4 => r.v4
  | 5 => r.v5
  | _ => none

/-- An equality condition, as built by the query builder call eq(column, value).
The compared value is always a non-null string in the adapter. -/
structure Cond where
  col : Col
  val : String
deriving DecidableEq, Repr

/-- SQL equality of a nullable column against a string: a NULL column never
matches. -/
def condHolds (r : CasbinRule) (c : Cond) : Bool :=
  getCol r c.col == some c.val

/-- Conjunction and(...) of a list of equality conditions. -/
def matchesAll (r : CasbinRule) (cs : List Cond) : Bool :=
  cs.all (condHolds r)

/-- JavaScript truthiness of a nullable string: null and the empty string are
falsy, every other string is truthy. -/
def truthy : Option String → Bool
  | none => false
  | some s => s != ""

/-- savePolicyLine (adapter.ts lines 149-161): index i of the rule tuple maps
to column v_i, absent positions map to null. -/
def savePolicyLine (ptype : String) (rule : List String) : CasbinRule :=
  { ptype := some ptype
    v0 := rule.get? 0
    v1 := rule.get? 1
    v2 := rule.get? 2
    v3 := rule.get? 3
    v4 := rule.get? 4
    v5 := rule.get? 5 }

/-- The value fields that loadPolicyLine (adapter.ts lines 83-92) keeps when it
rebuilds a rule line from a row: the truthy entries of [v0..v5] in order.
Each kept entry is then quoted, joined after the ptype, and the resulting
line is handed to the enforcer's line parsing, which installs exactly these
fields as the loaded tuple. -/
def loadPolicyLineValues (line : CasbinRule) : List String :=
  ([line.v0, line.v1, line.v2, line.v3, line.v4, line.v5].filter truthy).filterMap id

/-- The database statements the adapter issues through the query builder. -/
inductive DbStmt where
  | deleteAll
  | deleteWhere (conds : List Cond)
  | insertRows (rows : List CasbinRule)
  | updateWhere (conds : List Cond) (line : CasbinRule)
deriving DecidableEq, Repr

/-- Effect of one statement on the table contents. An update overwrites all
seven columns of every matching row with the given line. -/
def applyStmt (table : List CasbinRule) : DbStmt → List CasbinRule
  | .deleteAll => []
  | .deleteWhere conds => table.filter (fun r => !(matchesAll r conds))
  | .insertRows rows => table ++ rows
  | .updateWhere conds line =>
      table.map (fun r =>
        if matchesAll r conds then
          { r with ptype := line.ptype, v0 := line.v0, v1 := line.v1, v2 := line.v2,
                   v3 := line.v3, v4 := line.v4, v5 := line.v5 }
        else r)

/-- Effect of a sequence of statements, issued in order. -/
def applyStmts (table : List CasbinRule) (stmts : List DbStmt) : List CasbinRule :=
  stmts.foldl applyStmt table

/-- addPolicy (adapter.ts lines 201-208): insert the single saved line. -/
def addPolicyStmts (ptype : String) (rule : List String) : List DbStmt :=
  [.insertRows [savePolicyLine ptype rule]]

/-- Table contents after addPolicy. -/
def addPolicy (table : List CasbinRule) (ptype : String) (rule : List String) :
    List CasbinRule :=
  applyStmts table (addPolicyStmts ptype rule)

/-- loadPolicy (adapter.ts lines 97-103): read every row and hand each
reconstructed line (the row's ptype together with its kept values) to the
model. -/
def loadPolicyRead (table : List CasbinRule) : List (Option String × List String) :=
  table.map fun r => (r.ptype, loadPolicyLineValues r)

/-- A sample row, as written by addPolicy for the tuple alice/data1/read. -/
def rowAlice : CasbinRule :=
  ⟨some "p", some "alice", some "data1", some "read", none, none, none⟩

/-- A sample row, as written by addPolicy for the tuple bob/data2/write. -/
def rowBob : CasbinRule :=
  ⟨some "p", some "bob", some "data2", some "write", none, none, none⟩

/-- Filtering away falsy entries and then extracting is extraction followed by
dropping empty strings. -/
lemma filter_truthy_filterMap (l : List (Option String)) :
    (l.filter truthy).filterMap id = (l.filterMap id).filter (fun s => s != "") := by
  induction l with
  | nil => rfl
  | cons o l ih =>
    cases o with
    | none => simpa [truthy] using ih
    | some s =>
      by_cases hs : s = ""
      · simp [truthy, hs, ih]
      · simp [truthy, hs, ih]

/-- For a tuple of length at most 6, reading back the six columns of the saved
line and dropping the nulls recovers the tuple. -/
lemma cols_filterMap (ptype : String) (rule : List String) (h6 : rule.length ≤ 6) :
    [(savePolicyLine ptype rule).v0, (savePolicyLine ptype rule).v1,
     (savePolicyLine ptype rule).v2, (savePolicyLine ptype rule).v3,
     (savePolicyLine ptype rule).v4, (savePolicyLine ptype rule).v5].filterMap id
      = rule := by
  obtain _ | ⟨a, _ | ⟨b, _ | ⟨c, _ | ⟨d, _ | ⟨e, _ | ⟨f, rest⟩⟩⟩⟩⟩⟩ := rule
  · simp [savePolicyLine]
  · simp [savePolicyLine]
  · simp [savePolicyLine]
  · simp [savePolicyLine]
  · simp [savePolicyLine]
  · simp [savePolicyLine]
  · have : rest = [] := by
      simp only [List.length_cons] at h6
      exact List.eq_nil_of_length_eq_zero (by omega)
    subst this
    simp [savePolicyLine]

/-- Saving a tuple of length at most 6 and rebuilding the line keeps exactly
its non-empty fields, in order. -/
lemma roundtrip_filter (ptype : String) (rule : List String) (h6 : rule.length ≤ 6) :
    loadPolicyLineValues (savePolicyLine ptype rule)
      = rule.filter (fun s => s != "") := by
  unfold loadPolicyLineValues
  rw [filter_truthy_filterMap, cols_filterMap ptype rule h6]

/-- C1: the claim as stated is false: the tuple [""] has length 1, but saving
it and rebuilding the line yields the empty tuple, not [""], because the line
reconstruction drops falsy (empty-string) column values. -/
theorem c1_roundtrip_counterexample :
    loadPolicyRead (addPolicy [] "p" [""]) ≠ [(some "p", [""])] := by
  decide

/-- C1 (amended): for every rule tuple of length 1 to 6 all of whose fields
are non-empty strings, addPolicy followed by loadPolicy reconstructs a tuple
equal to the original, with no added or missing trailing fields: the saved
line maps tuple index i to column v_i and absent positions to null, and the
load path rebuilds the line from the row's ptype and kept values in order. -/
theorem c1_roundtrip (ptype : String) (rule : List String)
    (h1 : 1 ≤ rule.length) (h6 : rule.length ≤ 6) (hne : ∀ s ∈ rule, s ≠ "") :
    loadPolicyRead (addPolicy [] ptype rule) = [(some ptype, rule)] := by
  have hfix : rule.filter (fun s => s != "") = rule := by
    apply List.filter_eq_self.mpr
    intro s hs
    simpa using hne s hs
  have hvals := roundtrip_filter ptype rule h6
  rw [hfix] at hvals
  simp only [addPolicy, addPolicyStmts, applyStmts, List.foldl_cons, List.foldl_nil,
    applyStmt, List.nil_append, loadPolicyRead, List.map_cons, List.map_nil, hvals]
  simp [savePolicyLine]

/-- C1 witness: the round trip at the concrete tuple alice/data1/read. -/
theorem c1_roundtrip_witness :
    loadPolicyRead (addPolicy [] "p" ["alice", "data1", "read"])
      = [(some "p", ["alice", "data1", "read"])] :=
  c1_roundtrip "p" ["alice", "data1", "read"] (by decide) (by decide) (by decide)

/-- For positions 0..5, the saved line's value column at position i holds the
tuple entry at index i when present and null otherwise. -/
lemma rowV_savePolicyLine (ptype : String) (rule : List String) (i : Nat) (hi : i < 6) :
    rowV (savePolicyLine ptype rule) i = rule.get? i := by
  interval_cases i <;> rfl

/-- Removing an element that fails the predicate strictly shrinks a filter. -/
lemma length_filter_lt_of_mem {α : Type} (p : α → Bool) {l : List α} {x : α}
    (hx : x ∈ l) (hpx : p x = false) : (l.filter p).length < l.length := by
  induction l with
  | nil => cases hx
  | cons a l ih =>
    rcases List.mem_cons.mp hx with rfl | hm
    · simp only [List.filter_cons, hpx, List.length_cons]
      exact Nat.lt_succ_of_le (List.length_filter_le p l)
    · by_cases hpa : p a = true
      · simp only [List.filter_cons, hpa, if_pos, List.length_cons]
        exact Nat.succ_lt_succ (ih hm)
      · simp only [List.filter_cons, hpa, if_neg, List.length_cons]
        exact Nat.lt_succ_of_lt (ih hm)

/-- C9: the line reconstruction drops empty-string column values as well as
nulls, while savePolicyLine stores an empty tuple field as the empty string
rather than null; hence a stored row holding the empty string in some value
column loads back as a strictly shorter tuple than was written. -/
theorem c9_empty_string_fields (ptype : String) (rule : List String)
    (h6 : rule.length ≤ 6) (i : Nat) (hi : i < rule.length)
    (he : rule.getD i "" = "") :
    rowV (savePolicyLine ptype rule) i = some ""
      ∧ (loadPolicyLineValues (savePolicyLine ptype rule)).length < rule.length := by
  have hgetD : rule.getD i "" = rule[i] := List.getD_eq_getElem rule "" hi
  have hmem : ("" : String) ∈ rule := by
    have := List.getElem_mem (l := rule) (n := i) hi
    rwa [← hgetD, he] at this
  constructor
  · rw [rowV_savePolicyLine ptype rule i (by omega)]
    rw [List.get?_eq_getElem?, List.getElem?_eq_getElem hi, ← hgetD, he]
  · rw [roundtrip_filter ptype rule h6]
    exact length_filter_lt_of_mem _ hmem (by simp)

/-- C9 witness: saving alice//read (middle field empty) stores the empty
string in v1, and the reconstructed tuple has fewer than 3 fields. -/
theorem c9_empty_string_fields_witness :
    rowV (savePolicyLine "p" ["alice", "", "read"]) 1 = some ""
      ∧ (loadPolicyLineValues (savePolicyLine "p" ["alice", "", "read"])).length
          < (["alice", "", "read"] : List String).length :=
  c9_empty_string_fields "p" ["alice", "", "read"] (by decide) 1 (by decide) (by decide)

/-- Push one equality condition when the optional value is present (a non-null
column of a saved line, or a defined filter field), nothing otherwise. -/
def optCond (c : Col) : Option String → List Cond
  | some v => [⟨c, v⟩]
  | none => []

/-- removePolicy (adapter.ts lines 279-308): equality on ptype plus one
equality per non-null value column of the saved line. -/
def removePolicyConds (ptype : String) (rule : List String) : List Cond :=
  let line := savePolicyLine ptype rule
  ⟨Col.ptype, ptype⟩ ::
    (optCond .v0 line.v0 ++ optCond .v1 line.v1 ++ optCond .v2 line.v2 ++
      optCond .v3 line.v3 ++ optCond .v4 line.v4 ++ optCond .v5 line.v5)

/-- removePolicy issues a single conditional delete. -/
def removePolicyStmts (ptype : String) (rule : List String) : List DbStmt :=
  [.deleteWhere (removePolicyConds ptype rule)]

/-- Table contents after removePolicy. -/
def removePolicy (table : List CasbinRule) (ptype : String) (rule : List String) :
    List CasbinRule :=
  applyStmts table (removePolicyStmts ptype rule)

/-- updatePolicy match step (adapter.ts lines 241-260): equality on ptype plus
one equality per non-null value column of the old tuple's saved line. -/
def updatePolicyConds (ptype : String) (oldRule : List String) : List Cond :=
  let oldLine := savePolicyLine ptype oldRule
  ⟨Col.ptype, ptype⟩ ::
    (optCond .v0 oldLine.v0 ++ optCond .v1 oldLine.v1 ++ optCond .v2 oldLine.v2 ++
      optCond .v3 oldLine.v3 ++ optCond .v4 oldLine.v4 ++ optCond .v5 oldLine.v5)

/-- updatePolicy issues a single conditional update that overwrites all seven
columns with the new tuple's saved line. -/
def updatePolicyStmts (ptype : String) (oldRule newRule : List String) : List DbStmt :=
  [.updateWhere (updatePolicyConds ptype oldRule) (savePolicyLine ptype newRule)]

/-- Table contents after updatePolicy. -/
def updatePolicy (table : List CasbinRule) (ptype : String)
    (oldRule newRule : List String) : List CasbinRule :=
  applyStmts table (updatePolicyStmts ptype oldRule newRule)

/-- C8: removePolicy builds exactly the clause set that updatePolicy builds as
its match predicate for the same ptype and tuple, and deletes (rather than
overwrites) precisely the rows satisfying that predicate. -/
theorem c8_removePolicy_updatePolicy_agree (table : List CasbinRule)
    (ptype : String) (rule : List String) :
    removePolicyConds ptype rule = updatePolicyConds ptype rule
      ∧ removePolicy table ptype rule
          = table.filter (fun r => !(matchesAll r (updatePolicyConds ptype rule))) :=
  ⟨rfl, rfl⟩

/-- C10: removePolicy with the empty tuple constrains only ptype, so it
deletes every row whose ptype equals the given one. -/
theorem c10_removePolicy_empty_rule (table : List CasbinRule) (ptype : String) :
    removePolicy table ptype []
      = table.filter (fun r => !(r.ptype == some ptype)) := by
  have hbase : removePolicy table ptype []
      = table.filter (fun r => !(matchesAll r (removePolicyConds ptype []))) := rfl
  rw [hbase]
  apply List.filter_congr
  intro r _
  simp [removePolicyConds, matchesAll, condHolds, getCol, savePolicyLine, optCond]

/-- The switch over fieldIndex + i in removeFilteredPolicy (adapter.ts lines
342-361): only indices 0..5 select a value column. -/
def colOfIdx (idx : Int) : Option Col :=
  if idx = 0 then some .v0
  else if idx = 1 then some .v1
  else if idx = 2 then some .v2
  else if idx = 3 then some .v3
  else if idx = 4 then some .v4
  else if idx = 5 then some .v5
  else none

/-- The loop of removeFilteredPolicy over fieldValues (adapter.ts lines
338-363): idx is fieldIndex + i for the element at offset i; falsy (empty)
values and out-of-range indices push no condition. -/
def fieldConds : Int → List String → List Cond
  | _, [] => []
  | idx, value :: rest =>
      (if value != "" then ((colOfIdx idx).map fun c => Cond.mk c value).toList else [])
        ++ fieldConds (idx + 1) rest

/-- removeFilteredPolicy (adapter.ts lines 326-368): equality on ptype when it
is truthy (non-empty), plus the per-value conditions of the loop. -/
def removeFilteredPolicyConds (ptype : String) (fieldIndex : Int)
    (fieldValues : List String) : List Cond :=
  (if ptype != "" then [Cond.mk .ptype ptype] else [])
    ++ fieldConds fieldIndex fieldValues

/-- removeFilteredPolicy issues a conditional delete only when at least one
condition was built; with no conditions it issues nothing. -/
def removeFilteredPolicyStmts (ptype : String) (fieldIndex : Int)
    (fieldValues : List String) : List DbStmt :=
  if (removeFilteredPolicyConds ptype fieldIndex fieldValues).length > 0 then
    [.deleteWhere (removeFilteredPolicyConds ptype fieldIndex fieldValues)]
  else []

/-- Table contents after removeFilteredPolicy. -/
def removeFilteredPolicy (table : List CasbinRule) (ptype : String)
    (fieldIndex : Int) (fieldValues : List String) : List CasbinRule :=
  applyStmts table (removeFilteredPolicyStmts ptype fieldIndex fieldValues)

/-- The switch yields no column exactly for indices outside 0..5. -/
lemma colOfIdx_eq_none_iff (idx : Int) :
    colOfIdx idx = none ↔ idx < 0 ∨ 5 < idx := by
  unfold colOfIdx
  split_ifs <;> simp <;> omega

/-- When the switch yields a column, the pushed equality condition tests the
value column at that numeric position. -/
lemma colOfIdx_some_cond (idx : Int) (c : Col) (h : colOfIdx idx = some c)
    (r : CasbinRule) (v : String) :
    condHolds r ⟨c, v⟩ = (rowV r idx.toNat == some v) := by
  unfold colOfIdx at h
  split_ifs at h with h0 h1 h2 h3 h4 h5
  · cases h; subst h0; rfl
  · cases h; subst h1; rfl
  · cases h; subst h2; rfl
  · cases h; subst h3; rfl
  · cases h; subst h4; rfl
  · cases h; subst h5; rfl

/-- The loop conditions all hold iff every supplied value is empty,
out of range, or matched by the row at its shifted position. -/
lemma fieldConds_all_iff (r : CasbinRule) :
    ∀ (vs : List String) (idx : Int),
      ((fieldConds idx vs).all (condHolds r) = true)
        ↔ ∀ i, i < vs.length →
            (vs.getD i "" = "" ∨ idx + (i : Int) < 0 ∨ 5 < idx + (i : Int)
              ∨ rowV r (idx + (i : Int)).toNat = some (vs.getD i "")) := by
  intro vs
  induction vs with
  | nil => intro idx; simp [fieldConds]
  | cons v vs ih =>
    intro idx
    simp only [fieldConds, List.all_append, Bool.and_eq_true]
    constructor
    · rintro ⟨hhead, htail⟩ i hi
      cases i with
      | zero =>
        simp only [List.getD_cons_zero, Nat.cast_zero, add_zero]
        by_cases hv : v = ""
        · exact Or.inl hv
        · cases hcol : colOfIdx idx with
          | none =>
            have := (colOfIdx_eq_none_iff idx).mp hcol
            tauto
          | some c =>
            have hcond : condHolds r ⟨c, v⟩ = true := by
              simpa [hv, hcol] using hhead
            rw [colOfIdx_some_cond idx c hcol r v] at hcond
            exact Or.inr (Or.inr (Or.inr (by simpa using hcond)))
      | succ j =>
        have hj : j < vs.length := by simpa using hi
        have hres := (ih (idx + 1)).mp htail j hj
        have hcast : idx + ((j + 1 : Nat) : Int) = idx + 1 + (j : Int) := by
          push_cast
          ring
        rw [List.getD_cons_succ, hcast]
        exact hres
    · intro hall
      constructor
      · by_cases hv : v = ""
        · simp [hv]
        · cases hcol : colOfIdx idx with
          | none => simp [hv, hcol]
          | some c =>
            have h0 := hall 0 (by simp)
            simp only [List.getD_cons_zero, Nat.cast_zero, add_zero] at h0
            have hrange : ¬(idx < 0 ∨ 5 < idx) := by
              intro hout
              have : colOfIdx idx = none := (colOfIdx_eq_none_iff idx).mpr hout
              rw [this] at hcol
              cases hcol
            have hrow : rowV r idx.toNat = some v := by tauto
            simp [hv, hcol, colOfIdx_some_cond idx c hcol r v, hrow]
      · apply (ih (idx + 1)).mpr
        intro j hj
        have hres := hall (j + 1) (by simpa using Nat.succ_lt_succ hj)
        have hcast : idx + ((j + 1 : Nat) : Int) = idx + 1 + (j : Int) := by
          push_cast
          ring
        rw [List.getD_cons_succ, hcast] at hres
        exact hres

/-- The loop builds no condition iff every supplied value is empty or falls
outside positions 0..5. -/
lemma fieldConds_eq_nil_iff :
    ∀ (vs : List String) (idx : Int),
      fieldConds idx vs = []
        ↔ ∀ i, i < vs.length →
            (vs.getD i "" = "" ∨ idx + (i : Int) < 0 ∨ 5 < idx + (i : Int)) := by
  intro vs
  induction vs with
  | nil => intro idx; simp [fieldConds]
  | cons v vs ih =>
    intro idx
    simp only [fieldConds, List.append_eq_nil]
    constructor
    · rintro ⟨hhead, htail⟩ i hi
      cases i with
      | zero =>
        simp only [List.getD_cons_zero, Nat.cast_zero, add_zero]
        by_cases hv : v = ""
        · exact Or.inl hv
        · have hcol : colOfIdx idx = none := by
            by_contra hne
            rcases Option.ne_none_iff_exists.mp hne with ⟨c, hc⟩
            simp [hv, ← hc] at hhead
          have := (colOfIdx_eq_none_iff idx).mp hcol
          tauto
      | succ j =>
        have hj : j < vs.length := by simpa using hi
        have hres := (ih (idx + 1)).mp htail j hj
        have hcast : idx + ((j + 1 : Nat) : Int) = idx + 1 + (j : Int) := by
          push_cast
          ring
        rw [List.getD_cons_succ, hcast]
        exact hres
    · intro hall
      constructor
      · by_cases hv : v = ""
        · simp [hv]
        · have h0 := hall 0 (by simp)
          simp only [List.getD_cons_zero, Nat.cast_zero, add_zero] at h0
          have hout : idx < 0 ∨ 5 < idx := by tauto
          simp [hv, (colOfIdx_eq_none_iff idx).mpr hout]
      · apply (ih (idx + 1)).mpr
        intro j hj
        have hres := hall (j + 1) (by simpa using Nat.succ_lt_succ hj)
        have hcast : idx + ((j + 1 : Nat) : Int) = idx + 1 + (j : Int) := by
          push_cast
          ring
        rw [List.getD_cons_succ, hcast] at hres
        exact hres

/-- C3: when the ptype is empty and every supplied value is empty or maps
outside positions 0..5 (in particular when no values are supplied), the
effective predicate set is empty, removeFilteredPolicy issues no delete at
all, and every row of the table is left unchanged. -/
theorem c3_empty_predicate_noop (table : List CasbinRule) (ptype : String)
    (fieldIndex : Int) (fieldValues : List String)
    (hp : ptype = "")
    (hv : ∀ i, i < fieldValues.length →
      (fieldValues.getD i "" = "" ∨ fieldIndex + (i : Int) < 0
        ∨ 5 < fieldIndex + (i : Int))) :
    removeFilteredPolicyStmts ptype fieldIndex fieldValues = []
      ∧ removeFilteredPolicy table ptype fieldIndex fieldValues = table := by
  have hfc : fieldConds fieldIndex fieldValues = [] :=
    (fieldConds_eq_nil_iff fieldValues fieldIndex).mpr hv
  have hconds : removeFilteredPolicyConds ptype fieldIndex fieldValues = [] := by
    simp [removeFilteredPolicyConds, hp, hfc]
  have hstmts : removeFilteredPolicyStmts ptype fieldIndex fieldValues = [] := by
    simp [removeFilteredPolicyStmts, hconds]
  exact ⟨hstmts, by simp [removeFilteredPolicy, hstmts, applyStmts]⟩

/-- C3 witness: removeFilteredPolicy with empty ptype, index 0 and no values
issues nothing and removes nothing. -/
theorem c3_empty_predicate_noop_witness :
    removeFilteredPolicyStmts "" 0 [] = []
      ∧ removeFilteredPolicy [rowAlice] "" 0 [] = [rowAlice] :=
  c3_empty_predicate_noop [rowAlice] "" 0 [] rfl
    (fun i hi => absurd hi (by simp))

/-- The predicate C6 describes for removeFilteredPolicy: equality on ptype
when the given ptype is non-empty, and, for each supplied non-empty value at
list position i, equality on the value column at position fieldIndex + i when
that position lies in 0..5; empty values and out-of-range positions impose no
constraint. -/
def rfpMatchSpec (ptype : String) (fieldIndex : Int) (fieldValues : List String)
    (r : CasbinRule) : Bool :=
  (ptype == "" || r.ptype == some ptype)
    && (List.range fieldValues.length).all fun i =>
        fieldValues.getD i "" == ""
          || decide (fieldIndex + (i : Int) < 0)
          || decide (5 < fieldIndex + (i : Int))
          || rowV r (fieldIndex + (i : Int)).toNat == some (fieldValues.getD i "")

/-- The conditions removeFilteredPolicy builds hold for a row iff the row
satisfies the described predicate. -/
lemma rfp_match_true_iff (ptype : String) (fieldIndex : Int)
    (fieldValues : List String) (r : CasbinRule) :
    (matchesAll r (removeFilteredPolicyConds ptype fieldIndex fieldValues) = true)
      ↔ (rfpMatchSpec ptype fieldIndex fieldValues r = true) := by
  simp only [matchesAll, removeFilteredPolicyConds, List.all_append, Bool.and_eq_true,
    rfpMatchSpec]
  apply and_congr
  · by_cases hp : ptype = ""
    · subst hp
      simp
    · simp [hp, condHolds, getCol, beq_iff_eq]
  · rw [fieldConds_all_iff]
    simp only [List.all_eq_true, List.mem_range, Bool.or_eq_true, beq_iff_eq,
      decide_eq_true_iff, or_assoc]

/-- Bool-level form of the previous lemma. -/
lemma rfp_match_eq (ptype : String) (fieldIndex : Int)
    (fieldValues : List String) (r : CasbinRule) :
    matchesAll r (removeFilteredPolicyConds ptype fieldIndex fieldValues)
      = rfpMatchSpec ptype fieldIndex fieldValues r :=
  Bool.coe_iff_coe.mp (rfp_match_true_iff ptype fieldIndex fieldValues r)

/-- C6: the claim as stated fails when no constraint results: with empty
ptype and no values, every row vacuously satisfies the empty conjunction, yet
the code deletes nothing. -/
theorem c6_removeFilteredPolicy_counterexample :
    removeFilteredPolicy [rowAlice] "" 0 []
      ≠ List.filter (fun r => !(rfpMatchSpec "" 0 [] r)) [rowAlice] := by
  decide

/-- C6 (amended): provided the call yields at least one constraint (the ptype
is non-empty, or some supplied value is non-empty at a position inside 0..5),
the rows deleted by removeFilteredPolicy are exactly those satisfying the
conjunction of: equality on ptype when the given ptype is non-empty, and, for
each supplied non-empty value at list position i, equality on the value
column at position fieldIndex + i when that position lies in 0..5; empty
values and out-of-range positions are silently ignored. -/
theorem c6_removeFilteredPolicy (table : List CasbinRule) (ptype : String)
    (fieldIndex : Int) (fieldValues : List String)
    (h : ptype ≠ "" ∨ ∃ i, i < fieldValues.length ∧ fieldValues.getD i "" ≠ ""
          ∧ 0 ≤ fieldIndex + (i : Int) ∧ fieldIndex + (i : Int) ≤ 5) :
    removeFilteredPolicy table ptype fieldIndex fieldValues
      = table.filter (fun r => !(rfpMatchSpec ptype fieldIndex fieldValues r)) := by
  have hne : removeFilteredPolicyConds ptype fieldIndex fieldValues ≠ [] := by
    rcases h with hp | ⟨i, hi, hv, h0, h5⟩
    · simp [removeFilteredPolicyConds, hp]
    · intro hnil
      rcases List.append_eq_nil.mp hnil with ⟨_, hfc⟩
      rcases (fieldConds_eq_nil_iff fieldValues fieldIndex).mp hfc i hi with
        hc | hc | hc
      · exact hv hc
      · omega
      · omega
  have hlen : 0 < (removeFilteredPolicyConds ptype fieldIndex fieldValues).length :=
    List.length_pos.mpr hne
  have hrun : removeFilteredPolicy table ptype fieldIndex fieldValues
      = table.filter
          (fun r => !(matchesAll r (removeFilteredPolicyConds ptype fieldIndex fieldValues))) := by
    simp [removeFilteredPolicy, removeFilteredPolicyStmts, hlen, applyStmts, applyStmt]
  rw [hrun]
  exact List.filter_congr (fun r _ => by rw [rfp_match_eq])

/-- C6 witness: with ptype p, fieldIndex 1 and the single value data2, exactly
the rows whose v1 is data2 (regardless of v0) are removed. -/
theorem c6_removeFilteredPolicy_witness :
    removeFilteredPolicy [rowAlice, rowBob] "p" 1 ["data2"]
      = List.filter (fun r => !(rfpMatchSpec "p" 1 ["data2"] r)) [rowAlice, rowBob] :=
  c6_removeFilteredPolicy [rowAlice, rowBob] "p" 1 ["data2"] (Or.inl (by decide))

/-- An optional condition holds iff the optional value, when present, is
matched by the column. -/
lemma optCond_all_iff (r : CasbinRule) (c : Col) (o : Option String) :
    ((optCond c o).all (condHolds r) = true)
      ↔ ∀ v, o = some v → getCol r c = some v := by
  cases o <;> simp [optCond, condHolds]

/-- A column agreeing with every defined lookup at k equals the lookup when k
is in range. -/
lemma eq_of_forall_imp {old : List String} {k : Nat} {x : Option String}
    (h : k < old.length) (hk : ∀ v, old[k]? = some v → x = some v) :
    x = old[k]? := by
  rcases hx : old[k]? with _ | v
  · exact absurd (List.getElem?_eq_none_iff.mp hx) (by omega)
  · exact hk v hx

/-- Conversely, equality with the lookup under the range hypothesis gives the
implication form. -/
lemma forall_imp_of_eq {old : List String} {k : Nat} {x : Option String}
    (hx : k < old.length → x = old[k]?) :
    ∀ v, old[k]? = some v → x = some v := by
  intro v hv
  have hk : k < old.length := by
    rcases List.getElem?_eq_some_iff.mp hv with ⟨h, _⟩
    exact h
  rw [hx hk, hv]

/-- The conditions updatePolicy builds hold for a row iff the row's ptype is
the given one and its value columns agree with the old tuple on every
position below the old tuple's length. -/
lemma upd_match_true_iff (r : CasbinRule) (ptype : String) (oldRule : List String)
    (h6 : oldRule.length ≤ 6) :
    (matchesAll r (updatePolicyConds ptype oldRule) = true)
      ↔ (r.ptype = some ptype
          ∧ ∀ i, i < oldRule.length → rowV r i = oldRule[i]?) := by
  simp only [updatePolicyConds, savePolicyLine, matchesAll, List.all_cons,
    List.all_append, Bool.and_eq_true, optCond_all_iff, condHolds, getCol,
    beq_iff_eq, List.get?_eq_getElem?, and_assoc]
  constructor
  · rintro ⟨hpt, h0, h1, h2, h3, h4, h5⟩
    refine ⟨hpt, ?_⟩
    intro i hi
    have hi6 : i < 6 := lt_of_lt_of_le hi h6
    interval_cases i
    · exact eq_of_forall_imp hi h0
    · exact eq_of_forall_imp hi h1
    · exact eq_of_forall_imp hi h2
    · exact eq_of_forall_imp hi h3
    · exact eq_of_forall_imp hi h4
    · exact eq_of_forall_imp hi h5
  · rintro ⟨hpt, hall⟩
    exact ⟨hpt, forall_imp_of_eq (fun h => hall 0 h), forall_imp_of_eq (fun h => hall 1 h),
      forall_imp_of_eq (fun h => hall 2 h), forall_imp_of_eq (fun h => hall 3 h),
      forall_imp_of_eq (fun h => hall 4 h), forall_imp_of_eq (fun h => hall 5 h)⟩

/-- C4: for old and new tuples of length at most 6, updatePolicy affects
exactly the rows whose ptype equals the given ptype and whose value columns
equal the old tuple on every position below its length (columns beyond the
old tuple's length are unconstrained); every affected row has all seven
fields overwritten with the new tuple's positional encoding (positions beyond
the new tuple's length become null); and if no row matches the operation is a
silent no-op. -/
theorem c4_updatePolicy (table : List CasbinRule) (ptype : String)
    (oldRule newRule : List String)
    (h1 : oldRule.length ≤ 6) (h2 : newRule.length ≤ 6) :
    (updatePolicy table ptype oldRule newRule
      = table.map (fun r =>
          if r.ptype = some ptype ∧ ∀ i, i < oldRule.length → rowV r i = oldRule[i]?
          then { r with ptype := some ptype, v0 := newRule[0]?, v1 := newRule[1]?,
                        v2 := newRule[2]?, v3 := newRule[3]?, v4 := newRule[4]?,
                        v5 := newRule[5]? }
          else r))
      ∧ ((∀ r ∈ table,
            ¬(r.ptype = some ptype ∧ ∀ i, i < oldRule.length → rowV r i = oldRule[i]?))
          → updatePolicy table ptype oldRule newRule = table) := by
  have hmain : updatePolicy table ptype oldRule newRule
      = table.map (fun r =>
          if r.ptype = some ptype ∧ ∀ i, i < oldRule.length → rowV r i = oldRule[i]?
          then { r with ptype := some ptype, v0 := newRule[0]?, v1 := newRule[1]?,
                        v2 := newRule[2]?, v3 := newRule[3]?, v4 := newRule[4]?,
                        v5 := newRule[5]? }
          else r) := by
    simp only [updatePolicy, updatePolicyStmts, applyStmts, List.foldl_cons,
      List.foldl_nil, applyStmt]
    apply List.map_congr_left
    intro r hr
    by_cases hb : r.ptype = some ptype ∧ ∀ i, i < oldRule.length → rowV r i = oldRule[i]?
    · rw [if_pos ((upd_match_true_iff r ptype oldRule h1).mpr hb), if_pos hb]
      simp [savePolicyLine]
    · rw [if_neg hb, if_neg ?hne]
      case hne =>
        intro hm
        exact hb ((upd_match_true_iff r ptype oldRule h1).mp hm)
  refine ⟨hmain, ?_⟩
  intro hnone
  rw [hmain]
  have hid : table.map (fun r =>
      if r.ptype = some ptype ∧ ∀ i, i < oldRule.length → rowV r i = oldRule[i]?
      then { r with ptype := some ptype, v0 := newRule[0]?, v1 := newRule[1]?,
                    v2 := newRule[2]?, v3 := newRule[3]?, v4 := newRule[4]?,
                    v5 := newRule[5]? }
      else r) = table.map id := by
    apply List.map_congr_left
    intro r hr
    rw [if_neg (hnone r hr)]
    rfl
  rw [hid, List.map_id]

/-- C4 witness: with a single non-matching row the update is a no-op. -/
theorem c4_updatePolicy_witness :
    updatePolicy [rowBob] "p" ["alice"] ["carol"] = [rowBob] :=
  (c4_updatePolicy [rowBob] "p" ["alice"] ["carol"] (by decide) (by decide)).2
    (by decide)

/-- The model as the adapter consumes it: for each of the two rule families
(p: plain policies, g: grouping policies), the ptype-to-rules associations in
the iteration order the model exposes. -/
structure CasbinModel where
  p : List (String × List (List String))
  g : List (String × List (List String))
deriving DecidableEq, Repr

/-- The lines savePolicy builds (adapter.ts lines 169-189): one saved line per
rule of the p family, then one per rule of the g family, in order. -/
def savePolicyLines (m : CasbinModel) : List CasbinRule :=
  (m.p.flatMap fun pa => pa.2.map fun rule => savePolicyLine pa.1 rule)
    ++ (m.g.flatMap fun pa => pa.2.map fun rule => savePolicyLine pa.1 rule)

/-- savePolicy (adapter.ts lines 166-196): delete every row, then issue one
batched insert of the built lines when any exist. -/
def savePolicyStmts (m : CasbinModel) : List DbStmt :=
  DbStmt.deleteAll ::
    (if (savePolicyLines m).length > 0 then [DbStmt.insertRows (savePolicyLines m)]
     else [])

/-- Table contents and returned boolean after savePolicy (it returns true). -/
def savePolicy (table : List CasbinRule) (m : CasbinModel) :
    List CasbinRule × Bool :=
  (applyStmts table (savePolicyStmts m), true)

/-- All (ptype, rule) pairs of the model, plain family first, in iteration
order. -/
def modelRules (m : CasbinModel) : List (String × List String) :=
  (m.p ++ m.g).flatMap fun pa => pa.2.map fun rule => (pa.1, rule)

/-- The built lines are the saved lines of the model's rules, in order. -/
lemma savePolicyLines_eq (m : CasbinModel) :
    savePolicyLines m = (modelRules m).map fun pr => savePolicyLine pr.1 pr.2 := by
  simp [savePolicyLines, modelRules, List.flatMap_append, List.map_flatMap,
    List.map_map, Function.comp_def]

/-- C5: savePolicy deletes every row, then inserts exactly one row per rule
tuple drawn from the p and g families in the model's iteration order as a
single batched insert (no insert at all when the model has zero rules), and
returns true. -/
theorem c5_savePolicy (table : List CasbinRule) (m : CasbinModel) :
    (savePolicy table m).1 = ((modelRules m).map fun pr => savePolicyLine pr.1 pr.2)
      ∧ (savePolicy table m).2 = true
      ∧ savePolicyStmts m
          = DbStmt.deleteAll ::
              (if modelRules m = [] then []
               else [DbStmt.insertRows
                      ((modelRules m).map fun pr => savePolicyLine pr.1 pr.2)]) := by
  refine ⟨?_, rfl, ?_⟩
  · rw [← savePolicyLines_eq]
    by_cases h : (savePolicyLines m).length > 0
    · simp [savePolicy, savePolicyStmts, h, applyStmts, applyStmt]
    · have h0 : savePolicyLines m = [] := List.length_eq_zero.mp (by omega)
      simp [savePolicy, savePolicyStmts, h, applyStmts, applyStmt, h0]
  · by_cases hm : modelRules m = []
    · have h0 : savePolicyLines m = [] := by rw [savePolicyLines_eq, hm]; rfl
      simp [savePolicyStmts, h0, hm]
    · have hlen : (savePolicyLines m).length > 0 := by
        rw [savePolicyLines_eq]
        simpa [List.length_pos] using hm
      simp [savePolicyStmts, hlen, hm, savePolicyLines_eq]

/-- The filter argument of loadFilteredPolicy: any subset of the seven fields
may be defined. -/
structure FilterOptions where
  ptype : Option String := none
  v0 : Option String := none
  v1 : Option String := none
  v2 : Option String := none
  v3 : Option String := none
  v4 : Option String := none
  v5 : Option String := none
deriving DecidableEq, Repr

/-- loadFilteredPolicy conditions (adapter.ts lines 112-134): one equality per
defined filter field, in field order. -/
def loadFilteredConds (f : FilterOptions) : List Cond :=
  optCond .ptype f.ptype ++ optCond .v0 f.v0 ++ optCond .v1 f.v1 ++ optCond .v2 f.v2
    ++ optCond .v3 f.v3 ++ optCond .v4 f.v4 ++ optCond .v5 f.v5

/-- The rows loadFilteredPolicy reads and feeds through the line
reconstruction (adapter.ts lines 136-145): the where clause is attached only
when at least one condition was built. -/
def loadFilteredRows (table : List CasbinRule) (f : FilterOptions) :
    List CasbinRule :=
  if (loadFilteredConds f).length > 0 then
    table.filter fun r => matchesAll r (loadFilteredConds f)
  else table

/-- The predicate C7 describes: one equality per defined filter field;
undefined fields impose no constraint. -/
def filterMatchSpec (f : FilterOptions) (r : CasbinRule) : Bool :=
  (f.ptype.all fun v => r.ptype == some v)
    && (f.v0.all fun v => r.v0 == some v)
    && (f.v1.all fun v => r.v1 == some v)
    && (f.v2.all fun v => r.v2 == some v)
    && (f.v3.all fun v => r.v3 == some v)
    && (f.v4.all fun v => r.v4 == some v)
    && (f.v5.all fun v => r.v5 == some v)

/-- Bool-level value of an optional condition group. -/
lemma optCond_all_bool (r : CasbinRule) (c : Col) (o : Option String) :
    (optCond c o).all (condHolds r) = o.all fun v => getCol r c == some v := by
  cases o <;> simp [optCond, condHolds]

/-- An optional condition group is empty iff the field is undefined. -/
lemma optCond_eq_nil (c : Col) (o : Option String) :
    optCond c o = [] ↔ o = none := by
  cases o <;> simp [optCond]

/-- The conditions loadFilteredPolicy builds hold for a row iff the row
satisfies the described per-field predicate. -/
lemma loadFiltered_match_eq (f : FilterOptions) (r : CasbinRule) :
    matchesAll r (loadFilteredConds f) = filterMatchSpec f r := by
  simp [matchesAll, loadFilteredConds, List.all_append, optCond_all_bool,
    filterMatchSpec, getCol, Bool.and_assoc]

/-- C7: the rows loadFilteredPolicy reads are exactly those satisfying one
equality per defined filter field (undefined fields impose no constraint),
and the filter with every field undefined reads the whole table, like an
unfiltered load. -/
theorem c7_loadFilteredPolicy (f : FilterOptions) (table : List CasbinRule) :
    loadFilteredRows table f = (table.filter fun r => filterMatchSpec f r)
      ∧ loadFilteredRows table {} = table := by
  constructor
  · by_cases h : (loadFilteredConds f).length > 0
    · simp only [loadFilteredRows, if_pos h]
      exact List.filter_congr fun r _ => loadFiltered_match_eq f r
    · have hnil : loadFilteredConds f = [] := List.length_eq_zero.mp (by omega)
      simp only [loadFilteredConds, List.append_eq_nil, optCond_eq_nil, and_assoc]
        at hnil
      obtain ⟨hp, h0, h1, h2, h3, h4, h5⟩ := hnil
      have hspec : ∀ r, filterMatchSpec f r = true := by
        intro r
        simp [filterMatchSpec, hp, h0, h1, h2, h3, h4, h5]
      simp [loadFilteredRows, h, List.filter_congr fun r _ => hspec r]
  · simp [loadFilteredRows, loadFilteredConds, optCond]

/-- addPolicies (adapter.ts lines 213-227): one batched insert of the saved
lines, nothing when the rule list is empty. -/
def addPoliciesStmts (ptype : String) (rules : List (List String)) : List DbStmt :=
  if (rules.map (savePolicyLine ptype)).length > 0 then
    [.insertRows (rules.map (savePolicyLine ptype))]
  else []

/-- removePolicies (adapter.ts lines 313-321): one removePolicy delete per
tuple, sequentially in list order. -/
def removePoliciesStmts (ptype : String) (rules : List (List String)) :
    List DbStmt :=
  rules.map fun rule => DbStmt.deleteWhere (removePolicyConds ptype rule)

/-- Adapter state: the backing table plus the filtered flag (false at
construction, adapter.ts line 60). -/
structure AdapterState where
  table : List CasbinRule
  filtered : Bool
deriving DecidableEq, Repr

/-- newAdapter does not touch the database and starts unfiltered. -/
def newAdapter (table : List CasbinRule) : AdapterState :=
  { table := table, filtered := false }

/-- isFiltered (adapter.ts lines 67-69): pure accessor of the flag. -/
def isFiltered (s : AdapterState) : Bool :=
  s.filtered

/-- One adapter operation with its arguments. -/
inductive AdapterOp where
  | loadPolicy
  | loadFilteredPolicy (f : FilterOptions)
  | savePolicy (m : CasbinModel)
  | addPolicy (ptype : String) (rule : List String)
  | addPolicies (ptype : String) (rules : List (List String))
  | removePolicy (ptype : String) (rule : List String)
  | removePolicies (ptype : String) (rules : List (List String))
  | removeFilteredPolicy (ptype : String) (fieldIndex : Int) (fieldValues : List String)
  | updatePolicy (ptype : String) (oldRule newRule : List String)

/-- Effect of one adapter operation on the adapter state: loads do not change
the table; loadFilteredPolicy is the only operation that assigns the filtered
flag, and it sets it to true (adapter.ts line 146). -/
def applyOp (s : AdapterState) : AdapterOp → AdapterState
  | .loadPolicy => s
  | .loadFilteredPolicy _ => { s with filtered := true }
  | .savePolicy m => { s with table := applyStmts s.table (savePolicyStmts m) }
  | .addPolicy ptype rule =>
      { s with table := applyStmts s.table (addPolicyStmts ptype rule) }
  | .addPolicies ptype rules =>
      { s with table := applyStmts s.table (addPoliciesStmts ptype rules) }
  | .removePolicy ptype rule =>
      { s with table := applyStmts s.table (removePolicyStmts ptype rule) }
  | .removePolicies ptype rules =>
      { s with table := applyStmts s.table (removePoliciesStmts ptype rules) }
  | .removeFilteredPolicy ptype fieldIndex fieldValues =>
      { s with table := applyStmts s.table (removeFilteredPolicyStmts ptype fieldIndex fieldValues) }
  | .updatePolicy ptype oldRule newRule =>
      { s with table := applyStmts s.table (updatePolicyStmts ptype oldRule newRule) }

/-- Recognize a loadFilteredPolicy call. -/
def isLoadFilteredCall : AdapterOp → Bool
  | .loadFilteredPolicy _ => true
  | _ => false

/-- Run a sequence of adapter operations. -/
def runOps (s : AdapterState) (ops : List AdapterOp) : AdapterState :=
  ops.foldl applyOp s

/-- The flag after a run is its old value, or true if the run contains a
loadFilteredPolicy call. -/
lemma filtered_runOps (ops : List AdapterOp) :
    ∀ s, (runOps s ops).filtered = (s.filtered || ops.any isLoadFilteredCall) := by
  induction ops with
  | nil => intro s; simp [runOps]
  | cons op ops ih =>
    intro s
    have hstep : (applyOp s op).filtered = (s.filtered || isLoadFilteredCall op) := by
      cases op <;> simp [applyOp, isLoadFilteredCall]
    calc (runOps s (op :: ops)).filtered
        = (runOps (applyOp s op) ops).filtered := rfl
      _ = ((applyOp s op).filtered || ops.any isLoadFilteredCall) := ih _
      _ = (s.filtered || (op :: ops).any isLoadFilteredCall) := by
          rw [hstep]
          simp [List.any_cons, Bool.or_assoc]

/-- C2: the filtered flag starts false, only loadFilteredPolicy sets it (to
true, regardless of filter content), nothing resets it, and isFiltered
returns it; hence after any operation sequence from a fresh adapter,
isFiltered is true iff the sequence contains a loadFilteredPolicy call. -/
theorem c2_filtered_flag (t0 : List CasbinRule) (ops : List AdapterOp) :
    isFiltered (runOps (newAdapter t0) ops) = ops.any isLoadFilteredCall := by
  simp [isFiltered, filtered_runOps, newAdapter]
